import Mathlib

/-!
Shallow embedding of `migrate.py`, a tool converting a Shippable test matrix
into an Azure Pipelines description.  Python strings are modelled as Lean
`String`s; the single-character `str.split`, substring `str.replace`,
`str.lower` and slicing operations used by the source are re-implemented
structurally over `String.data` so that all definitions evaluate by `decide`.
Python dictionaries (insertion-ordered, unique keys) are modelled as
association lists; Python exceptions are an explicit error type via `Except`.
-/

deriving instance DecidableEq for Except

namespace Migrate

/-- Python `str.split(sep)` for a single-character separator (keeps empty
fields; the empty string yields `[""]`). -/
def splitCharAux (sep : Char) : List Char → List Char → List String
  | [], acc => [String.mk acc.reverse]
  | c :: cs, acc =>
    if c = sep then String.mk acc.reverse :: splitCharAux sep cs []
    else splitCharAux sep cs (c :: acc)

def splitChar (s : String) (sep : Char) : List String :=
  splitCharAux sep s.data []

/-- Python `sep.join(parts)`. -/
def strJoin (sep : String) : List String → String
  | [] => ""
  | x :: xs => xs.foldl (fun acc y => acc ++ sep ++ y) x

/-- Python `len(s)` (number of code points). -/
def pyLen (s : String) : Nat := s.data.length

/-- Python slicing `s[n:]` (never out of range: past-the-end gives `""`). -/
def pyDrop (s : String) (n : Nat) : String := String.mk (s.data.drop n)

/-- Fueled worker for Python `str.replace(old, new)` (replaces every
occurrence, scanning left to right). -/
def replFuel (pat repl : List Char) : Nat → List Char → List Char
  | 0, l => l
  | _ + 1, [] => []
  | n + 1, c :: cs =>
    if pat.isPrefixOf (c :: cs) then repl ++ replFuel pat repl n ((c :: cs).drop pat.length)
    else c :: replFuel pat repl n cs

/-- Python `s.replace(pat, repl)` for non-empty `pat`. -/
def pyReplace (s pat repl : String) : String :=
  String.mk (replFuel pat.data repl.data s.data.length s.data)

/-- Python `s.lower()` (ASCII is all the source needs). -/
def pyLower (s : String) : String := String.mk (s.data.map Char.toLower)

/-- Python truthiness of an optional string: `None` and `""` are falsy. -/
def optTruthy (o : Option String) : Bool := o.getD "" ≠ ""

/-- Lookup in an insertion-ordered association list (Python `dict.get`). -/
def lookupA {α : Type} (m : List (String × α)) (k : String) : Option α :=
  (m.find? (fun e => e.1 == k)).map (fun e => e.2)

/-- Python `dict` update `m[k] = v`: replace in place if the key exists,
otherwise append (insertion order preserved). -/
def setA {α : Type} (m : List (String × α)) (k : String) (v : α) : List (String × α) :=
  if m.any (fun e => e.1 == k) then m.map (fun e => if e.1 == k then (k, v) else e)
  else m ++ [(k, v)]

/-- Python `set.add` observed through membership/size/sorted-iteration only. -/
def addSet (l : List String) (x : String) : List String :=
  if l.contains x then l else l ++ [x]

/-- `test_types`: Shippable test script name to (stage label, job label). -/
def test_types_list : List (String × (String × String)) :=
  [("sanity", ("Sanity", "Test")),
   ("units", ("Units", "Python")),
   ("windows", ("Windows", "Server")),
   ("osx", ("Remote", "OS X")),
   ("macos", ("Remote", "macOS")),
   ("rhel", ("Remote", "RHEL")),
   ("freebsd", ("Remote", "FreeBSD")),
   ("linux", ("Docker", "")),
   ("fallaxy", ("Fallaxy", "Python")),
   ("galaxy", ("Galaxy", "Python")),
   ("generic", ("Generic", "Python")),
   ("network", ("Network", "Python")),
   ("aws", ("AWS", "Python")),
   ("vcenter", ("vCenter", "Python")),
   ("cs", ("CloudStack", "Python")),
   ("tower", ("Tower", "Python")),
   ("cloud", ("Cloud", "Python")),
   ("hcloud", ("Hetzner", "Python")),
   ("ios", ("IOS", "Python")),
   ("vyos", ("VyOS", "Python")),
   ("azure", ("Azure", "Python"))]

def test_types (t : String) : Option (String × String) := lookupA test_types_list t

/-- `docker_types`: docker container short-name to (job name, version). -/
def docker_types_list : List (String × (String × String)) :=
  [("alpine3", ("Alpine", "3")),
   ("centos6", ("CentOS", "6")),
   ("centos7", ("CentOS", "7")),
   ("centos8", ("CentOS", "8")),
   ("fedora29", ("Fedora", "29")),
   ("fedora30", ("Fedora", "30")),
   ("fedora31", ("Fedora", "31")),
   ("fedora32", ("Fedora", "32")),
   ("ubuntu1604", ("Ubuntu", "16.04")),
   ("ubuntu1804", ("Ubuntu", "18.04")),
   ("opensuse15", ("openSUSE", "15")),
   ("opensuse15py2", ("openSUSE", "15 py2"))]

def docker_types (t : String) : Option (String × String) := lookupA docker_types_list t

/-- Job names given their own stage when incidental. -/
def split_incidental : List String := ["Docker", "Remote", "Windows"]

/-- Branch names recognized by `classify_matrix_item`. -/
def ansible_branches : List String :=
  ["devel", "stable-2.10", "stable-2.9", "2.10", "2.9"]

/-- The distinct Python exceptions the modelled core can raise.  `indexError`
models a raw Python `IndexError` (out-of-range subscript), distinct from the
tool's own `Exception` messages. -/
inductive MigrateError where
  | malformedEntry (tok : String)
  | unrecognizedKeys (values : List (String × String))
  | unknownTestType (t : String)
  | unhandledArity (t : String) (parts : List String)
  | unexpectedParameters (parts : List String)
  | unknownDockerAlias (v : String)
  | reconstructionMismatch (reconstructed original : String)
  | stageIncidentalConflict (name : String)
  | targetTypeConflict (name : String)
  | matrixCountMismatch (original converted : Nat)
  | indexError
deriving DecidableEq

/-- `TestConfig` dataclass.  `branch_pfx` models `branch_prefix`;
`branch_kvp` keeps the (key, value) pair recorded by the classifier. -/
structure TestConfig where
  stage_label : String
  job_label : String
  type : String
  platform : Option String
  version : Option String
  group : Option String
  incidental : Bool
  branch_pfx : Option String
  branch_kvp : Option (String × String)
deriving DecidableEq

/-- `TestConfig.branch_name`: branch to display (Python truthiness of the
branch sources; `str.replace` removes every `stable-` occurrence). -/
def TestConfig.branch_name (c : TestConfig) : Option String :=
  let branch : Option String :=
    if optTruthy c.branch_pfx then c.branch_pfx
    else
      match c.branch_kvp with
      | some kv => some kv.2
      | none => none
  match branch with
  | some b => if b = "" then some b else some (pyReplace b "stable-" "")
  | none => none

/-- The body of `TestConfig.stage_name` as a function of the three fields it
reads (stage label, displayed branch name, incidental flag). -/
def stageNameCore (sl : String) (bn : Option String) (inc : Bool) : String :=
  let base :=
    match bn with
    | some b => if b = "" then sl else sl ++ " " ++ b
    | none => sl
  if inc then
    if split_incidental.contains sl then "Incidental " ++ base else "Incidental"
  else base

/-- `TestConfig.stage_name`: Azure Pipelines stage for this test. -/
def TestConfig.stage_name (c : TestConfig) : String :=
  stageNameCore c.stage_label c.branch_name c.incidental

/-- `TestConfig.name_components`: job display-name tokens. -/
def TestConfig.name_components (c : TestConfig) : List String :=
  let parts := [c.job_label]
  let parts :=
    if c.incidental && !split_incidental.contains c.stage_label then
      c.stage_label :: parts
    else parts
  match c.version with
  | some v =>
    if v = "" then parts
    else if c.type = "linux" ∧ c.job_label = "openSUSE" ∧ v = "15" then parts ++ ["15 py3"]
    else parts ++ [v]
  | none => parts

/-- `TestConfig.test_components`: test identifier tokens.  For `linux` the
source computes `platform + version` with both fields set (the classifier
guarantees this; on `None` Python would raise `TypeError`), modelled with
`Option.getD ""`. -/
def TestConfig.test_components (c : TestConfig) : List String :=
  let parts : List (Option String) :=
    if c.type = "linux" then
      [some c.type,
       some (c.platform.getD "" ++ pyReplace (pyReplace (c.version.getD "") " " "") "." "")]
    else [some c.type, c.platform, c.version]
  let parts := parts.filterMap id
  let parts := if c.incidental then "i" :: parts else parts
  if optTruthy c.branch_pfx then c.branch_pfx.getD "" :: parts else parts

/-- `TestConfig.test`: reconstructed Shippable test identifier. -/
def TestConfig.test (c : TestConfig) : String :=
  let parts := c.test_components
  let parts := if optTruthy c.group then parts ++ [c.group.getD ""] else parts
  strJoin "/" parts

/-- One parsed matrix entry (`MatrixItem`). -/
structure MatrixItem where
  raw : String
  test : String
  values : List (String × String)
  parts : List String
deriving DecidableEq

/-- One `KEY=VALUE` token: Python `kvp.split('=')` fed to the `dict`
constructor, which raises `ValueError` unless the split has exactly two
fields. -/
def splitKvp (tok : String) : Except MigrateError (String × String) :=
  match splitChar tok '=' with
  | [k, v] => Except.ok (k, v)
  | _ => Except.error (.malformedEntry tok)

/-- Building the `dict`: a duplicate key silently overwrites the earlier
value in place. -/
def insertKvp (m : List (String × String)) (kv : String × String) :
    List (String × String) :=
  if m.any (fun e => e.1 == kv.1) then m.map (fun e => if e.1 == kv.1 then kv else e)
  else m ++ [kv]

/-- The per-item body of `parse_shippable_matrix` (the YAML I/O around it is
an external collaborator).  `values.pop('T')` raises `KeyError` when absent,
modelled as a malformed-entry failure. -/
def parse_matrix_item (raw : String) : Except MigrateError MatrixItem := do
  let kvps ← (splitChar raw ' ').mapM splitKvp
  let values := kvps.foldl insertKvp []
  match values.find? (fun e => e.1 == "T") with
  | none => Except.error (.malformedEntry raw)
  | some tkv =>
    Except.ok ⟨raw, tkv.2, values.eraseP (fun e => e.1 == "T"), splitChar tkv.2 '/'⟩

/-- The arity-dependent decode of the remaining path segments in
`get_test_config` (source lines 241-256). -/
def arity_decode (test_type job_label : String) (parts : List String) :
    Except MigrateError (Option String × Option String × Option String) :=
  match parts with
  | [] => Except.ok (none, none, none)
  | [x] =>
    if job_label = "Python" then
      if x.data.contains '.' then Except.ok (none, some x, none)
      else Except.ok (none, none, some x)
    else Except.ok (none, some x, none)
  | [v, g] => Except.ok (none, some v, some g)
  | [p, v, g] => Except.ok (some p, some v, some g)
  | _ => Except.error (.unhandledArity test_type parts)

/-- `get_test_config`. -/
def get_test_config (test_type : String) (parts : List String) (incidental : Bool)
    (branch_pfx : Option String) (branch_kvp : Option (String × String)) :
    Except MigrateError TestConfig :=
  match test_types test_type with
  | none => Except.error (.unknownTestType test_type)
  | some (stage_label, job_label) =>
    match arity_decode test_type job_label parts with
    | Except.error e => Except.error e
    | Except.ok (platform, version, group) =>
      if test_type = "linux" then
        if optTruthy platform || !optTruthy version then
          Except.error (.unexpectedParameters parts)
        else
          match docker_types (version.getD "") with
          | none => Except.error (.unknownDockerAlias (version.getD ""))
          | some (dj, dv) =>
            Except.ok ⟨stage_label, dj, test_type, some (pyLower dj), some dv, group,
                       incidental, branch_pfx, branch_kvp⟩
      else
        Except.ok ⟨stage_label, job_label, test_type, platform, version, group,
                   incidental, branch_pfx, branch_kvp⟩

/-- The steps of `classify_matrix_item` after branch resolution: unused-key
check, incidental marker, type extraction (the `parts[0]` subscripts raise
`IndexError` on an empty sequence), then `get_test_config`. -/
def classify_tail (branch_pfx : Option String) (branch_kvp : Option (String × String))
    (parts : List String) (values : List (String × String)) :
    Except MigrateError TestConfig :=
  match values with
  | _ :: _ => Except.error (.unrecognizedKeys values)
  | [] =>
    match parts with
    | [] => Except.error .indexError
    | q0 :: qrest =>
      if q0 = "i" then
        match qrest with
        | [] => Except.error .indexError
        | tt :: parts3 => get_test_config tt parts3 true branch_pfx branch_kvp
      else
        get_test_config q0 qrest false branch_pfx branch_kvp

/-- `classify_matrix_item` up to (but excluding) the round-trip check: branch
resolution from the leading path segment or from a recognized value in the
leftover key/value pairs, then `classify_tail`.  The script existence check
after classification is filesystem I/O, out of the modelled core. -/
def classify_pre (mi : MatrixItem) : Except MigrateError TestConfig :=
  match mi.parts with
  | [] => Except.error .indexError
  | p0 :: rest =>
    if ansible_branches.contains p0 then
      classify_tail (some p0) none rest mi.values
    else
      match mi.values.find? (fun kv => ansible_branches.contains kv.2) with
      | some kv =>
        classify_tail none (some kv) (p0 :: rest)
          (mi.values.eraseP (fun kv2 => ansible_branches.contains kv2.2))
      | none => classify_tail none none (p0 :: rest) mi.values

/-- `classify_matrix_item`: classification followed by the round-trip check. -/
def classify_matrix_item (mi : MatrixItem) : Except MigrateError TestConfig :=
  match classify_pre mi with
  | Except.error e => Except.error e
  | Except.ok c =>
    if mi.test ≠ c.test then Except.error (.reconstructionMismatch c.test mi.test)
    else Except.ok c

/-- `Target` dataclass. -/
structure Target where
  name : String
  type : String
deriving DecidableEq

/-- `Stage` dataclass (the `targets` dict and the `groups` set as
insertion-ordered lists; `groups` is only observed through size, the single
element, and sorted iteration). -/
structure Stage where
  name : String
  incidental : Bool
  targets : List (String × Target)
  configs : List TestConfig
  groups : List String
deriving DecidableEq

def Stage.target_count (s : Stage) : Nat := s.targets.length

/-- `len(self.groups) or 1`. -/
def Stage.group_count (s : Stage) : Nat :=
  if s.groups.length = 0 then 1 else s.groups.length

def Stage.job_count (s : Stage) : Nat := s.target_count * s.group_count

/-- One iteration of the folding loop in `generate_stages`. -/
def foldStage (stages : List (String × Stage)) (item : TestConfig) :
    Except MigrateError (List (String × Stage)) :=
  let sname := item.stage_name
  let stage := (lookupA stages sname).getD ⟨sname, item.incidental, [], [], []⟩
  if stage.incidental ≠ item.incidental then
    Except.error (.stageIncidentalConflict sname)
  else
    let target_name := strJoin " " item.name_components
    let ttype := strJoin "/" item.test_components
    let target := (lookupA stage.targets target_name).getD ⟨target_name, ttype⟩
    if target.type ≠ ttype then Except.error (.targetTypeConflict target_name)
    else
      let stage1 : Stage :=
        { stage with
          configs := stage.configs ++ [item],
          targets := setA stage.targets target_name target,
          groups :=
            if optTruthy item.group then addSet stage.groups (item.group.getD "")
            else stage.groups }
      Except.ok (setA stages sname stage1)

/-- The whole folding loop of `generate_stages`. -/
def foldStages (items : List TestConfig) : Except MigrateError (List (String × Stage)) :=
  items.foldlM foldStage []

/-- `sum(stage.job_count for stage in stages.values())`. -/
def converted_jobs (stages : List (String × Stage)) : Nat :=
  (stages.map (fun e => e.2.job_count)).sum

/-- The job-count accounting of `generate_stages`: fatal when fewer jobs were
converted than folded; otherwise the returned flag records whether the
non-fatal surplus warning was printed. -/
def check_counts (n : Nat) (stages : List (String × Stage)) : Except MigrateError Bool :=
  let total := converted_jobs stages
  if total < n then Except.error (.matrixCountMismatch n total)
  else Except.ok (decide (n < total))

/-- The common-prefix loop of `generate_stages`: for `i` in 1..9, keep the
unanimous `tuple[0:i]` of all component tuples, stopping on disagreement or
on an empty trailing token (on an empty unanimous tuple `prefix[-1]` would
raise in Python; unreachable, as every component tuple is non-empty). -/
def pfxScanAux (tuples : List (List String)) (cur : List String) :
    List Nat → List String
  | [] => cur
  | i :: rest =>
    match tuples.map (fun tup => tup.take i) with
    | [] => cur
    | p :: ps =>
      if ps.all (fun q => q == p) then
        if p.getLastD "" = "" then cur
        else pfxScanAux tuples p rest
      else cur

def commonPfx (tuples : List (List String)) : List String :=
  pfxScanAux tuples [] [1, 2, 3, 4, 5, 6, 7, 8, 9]

/-- `len('/'.join(test_prefix) + '/')` when the prefix is non-empty, else 0. -/
def joinOffset (sep : String) (pfx : List String) : Nat :=
  if pfx ≠ [] then pyLen (strJoin sep pfx) + 1 else 0

/-- Result of `clean_value`: Python int, float, or the original string.  The
numeric value of a float is not modelled (floating point); only which branch
`clean_value` takes, so `floatVal` keeps the raw text. -/
inductive CleanVal where
  | intVal (i : Int)
  | floatVal (s : String)
  | strVal (s : String)
deriving DecidableEq

def isDigitsL (l : List Char) : Bool := !l.isEmpty && l.all Char.isDigit

def digitsToNat (l : List Char) : Nat :=
  l.foldl (fun a c => a * 10 + (c.toNat - 48)) 0

/-- Python `int(s)` on the grammar `[+-]digits` (surrounding whitespace and
underscore separators, which Python also tolerates, are not modelled; no
input of this tool contains them). -/
def pyInt (s : String) : Option Int :=
  match s.data with
  | '+' :: r => if isDigitsL r then some (Int.ofNat (digitsToNat r)) else none
  | '-' :: r => if isDigitsL r then some (-(Int.ofNat (digitsToNat r))) else none
  | r => if isDigitsL r then some (Int.ofNat (digitsToNat r)) else none

/-- Split at the first `e`/`E` (exponent marker of a Python float literal). -/
def splitAtE : List Char → List Char × Option (List Char)
  | [] => ([], none)
  | c :: cs =>
    if c = 'e' || c = 'E' then ([], some cs)
    else
      match splitAtE cs with
      | (m, ex) => (c :: m, ex)

/-- Split at the first `.`. -/
def splitAtDot : List Char → List Char × Option (List Char)
  | [] => ([], none)
  | c :: cs =>
    if c = '.' then ([], some cs)
    else
      match splitAtDot cs with
      | (ip, fp) => (c :: ip, fp)

def mantissaOkL (l : List Char) : Bool :=
  match splitAtDot l with
  | (ip, none) => isDigitsL ip
  | (ip, some f) =>
    (isDigitsL ip && f.all Char.isDigit) || (ip.all Char.isDigit && isDigitsL f)

def expOkL (l : List Char) : Bool :=
  match l with
  | '+' :: r => isDigitsL r
  | '-' :: r => isDigitsL r
  | r => isDigitsL r

/-- Whether Python `float(s)` succeeds, on decimal literals
`[+-] (digits [. digits] | . digits) [(e|E) [+-] digits]` (the `inf`/`nan`
spellings and underscores are not modelled; no input here uses them). -/
def pyFloatOk (s : String) : Bool :=
  let body :=
    match s.data with
    | '+' :: r => r
    | '-' :: r => r
    | r => r
  match splitAtE body with
  | (m, none) => mantissaOkL m
  | (m, some e) => mantissaOkL m && expOkL e

/-- `clean_value`. -/
def clean_value (v : String) : CleanVal :=
  match pyInt v with
  | some i => CleanVal.intVal i
  | none => if pyFloatOk v then CleanVal.floatVal v else CleanVal.strVal v

/-- Python string `<`: lexicographic by code point. -/
def lexLt : List Char → List Char → Bool
  | [], [] => false
  | [], _ :: _ => true
  | _ :: _, [] => false
  | a :: as, b :: bs =>
    if a.toNat < b.toNat then true
    else if b.toNat < a.toNat then false
    else lexLt as bs

def strLtB (a b : String) : Bool := lexLt a.data b.data

/-- Insertion sort on Python string order (lexicographic by code point). -/
def insertSorted (x : String) : List String → List String
  | [] => [x]
  | y :: ys => if strLtB x y then x :: y :: ys else y :: insertSorted x ys

def sortStr (l : List String) : List String := l.foldr insertSorted []

/-- `clean_values`: `sorted(values)` (as strings) then coerce each. -/
def clean_values (values : List String) : List CleanVal :=
  (sortStr values).map clean_value

/-- One target record emitted per stage (`name` is dropped when it coincides
with `test` after coercion). -/
structure CompiledTargetEntry where
  name : Option CleanVal
  test : CleanVal
deriving DecidableEq

/-- The per-stage content produced by `generate_stages` (the data-carrying
fields are modelled; `dependsOn` and the template boilerplate are constant). -/
structure CompiledStage where
  stage : String
  displayName : Option String
  nameFormat : Option String
  testFormat : Option String
  groups : Option (List CleanVal)
  targets : List CompiledTargetEntry
deriving DecidableEq

/-- The per-stage template compilation of `generate_stages` (source lines
452-546).  `tuple(list(stage.groups)[0], )` calls `tuple` on a string and
therefore yields the sequence of its one-character substrings. -/
def compileStage (stage : Stage) : CompiledStage :=
  let test_pfx := commonPfx (stage.configs.map TestConfig.test_components)
  let name_pfx := commonPfx (stage.configs.map TestConfig.name_components)
  let test_sfx : List String :=
    if stage.groups ≠ [] ∧ stage.groups.length = 1 then
      (stage.groups.headD "").data.map (fun c => String.mk [c])
    else []
  let groups : Option (List CleanVal) :=
    if stage.groups ≠ [] ∧ stage.groups.length ≠ 1 then some (clean_values stage.groups)
    else none
  let test_format := strJoin "/" (test_pfx ++ ["{0}"] ++ test_sfx)
  let test_off := joinOffset "/" test_pfx
  let name_format := strJoin " " (name_pfx ++ ["{0}"])
  let name_off := joinOffset " " name_pfx
  let targets := stage.targets.map (fun e =>
    let nm := clean_value (pyDrop e.2.name name_off)
    let ts := clean_value (pyDrop e.2.type test_off)
    (⟨if nm = ts then none else some nm, ts⟩ : CompiledTargetEntry))
  let stage_id := pyReplace (pyReplace stage.name " " "_") "." "_"
  { stage := stage_id
    displayName := if stage.name = stage_id then none else some stage.name
    nameFormat := if name_format = "{0}" then none else some name_format
    testFormat := if test_format = "{0}" then none else some test_format
    groups := groups
    targets := targets }

/-- `generate_stages` on an already classified matrix: fold, count check
(the `Bool` records whether the surplus warning was printed), then template
compilation per stage (the constant `Summary` stage appended at the end
carries no data and is omitted). -/
def generate_stages (items : List TestConfig) :
    Except MigrateError (Bool × List CompiledStage) := do
  let stages ← foldStages items
  let warn ← check_counts items.length stages
  Except.ok (warn, stages.map (fun e => compileStage e.2))

/-! ### Spec-side definitions used by refinement claims -/

/-- Stage labels occurring in `test_types` (second components' first parts). -/
def stageLabels : List String :=
  ["Sanity", "Units", "Windows", "Remote", "Docker", "Fallaxy", "Galaxy", "Generic",
   "Network", "AWS", "vCenter", "CloudStack", "Tower", "Cloud", "Hetzner", "IOS",
   "VyOS", "Azure"]

/-- Branch names the displayed stage name can carry (the recognized branches
after stripping `stable-`), plus the no-branch case. -/
def branchOpts : List (Option String) := ["devel", "2.10", "2.9"].map some ++ [none]

/-- Spec wording: strip a leading `stable-` from a branch name. -/
def stripStable (b : String) : String :=
  if "stable-".data.isPrefixOf b.data then String.mk (b.data.drop 7) else b

/-- Spec wording (claim C7): the resolved branch, taken from `branchPrefix`
or else from the branch key/value pair, with any `stable-` textual prefix
stripped. -/
def specResolvedBranch (c : TestConfig) : Option String :=
  match c.branch_pfx with
  | some b => some (stripStable b)
  | none =>
    match c.branch_kvp with
    | some kv => some (stripStable kv.2)
    | none => none

/-- Spec wording (claim C7): stage label, branch appended after a space when
resolved, then the incidental prefixing/replacement. -/
def specStageName (c : TestConfig) : String :=
  let base :=
    match specResolvedBranch c with
    | some b => c.stage_label ++ " " ++ b
    | none => c.stage_label
  if c.incidental then
    if split_incidental.contains c.stage_label then "Incidental " ++ base else "Incidental"
  else base

/-- Spec wording (claim C8): display target name built from `[jobLabel]`,
stage label prepended exactly when incidental and not split-incidental, and
the version appended when set (to a non-empty value, Python truthiness) —
except the `linux`/`openSUSE`/`15` carve-out appending `"15 py3"`. -/
def specNameComponents (c : TestConfig) : List String :=
  let base :=
    if c.incidental = true ∧ ¬ split_incidental.contains c.stage_label = true then
      [c.stage_label, c.job_label]
    else [c.job_label]
  match c.version with
  | none => base
  | some v =>
    if v = "" then base
    else if c.type = "linux" ∧ c.job_label = "openSUSE" ∧ v = "15" then base ++ ["15 py3"]
    else base ++ [v]

/-! ### Generic helper lemmas -/

theorem lookupA_mem {α : Type} (m : List (String × α)) (k : String) (v : α)
    (h : lookupA m k = some v) : (k, v) ∈ m := by
  unfold lookupA at h
  cases hf : m.find? (fun e => e.1 == k) with
  | none => rw [hf] at h; simp at h
  | some e =>
    rw [hf] at h
    simp only [Option.map_some'] at h
    have hm := List.mem_of_find?_eq_some hf
    have hp := List.find?_some hf
    have hk : e.1 = k := by simpa using hp
    have : e = (k, v) := by
      cases e with
      | mk a b => simp at hk h; simp [hk, h]
    exact this ▸ hm

theorem mem_setA {α : Type} (m : List (String × α)) (k : String) (v : α)
    (e : String × α) (he : e ∈ setA m k v) : e = (k, v) ∨ e ∈ m := by
  unfold setA at he
  by_cases h : m.any (fun x => x.1 == k)
  · rw [if_pos h] at he
    rcases List.mem_map.1 he with ⟨x, hx, hfx⟩
    by_cases hk : (x.1 == k) = true
    · rw [if_pos hk] at hfx; exact Or.inl hfx.symm
    · rw [if_neg hk] at hfx; exact Or.inr (hfx ▸ hx)
  · rw [if_neg h] at he
    rcases List.mem_append.1 he with h1 | h1
    · exact Or.inr h1
    · exact Or.inl (by simpa using h1)

/-- `strJoin` in terms of its fold. -/
theorem strJoin_cons (sep : String) (x : String) (xs : List String) :
    strJoin sep (x :: xs) = xs.foldl (fun acc y => acc ++ sep ++ y) x := rfl

theorem foldl_join_pre (sep : String) (l : List String) :
    ∀ a b : String,
      l.foldl (fun acc y => acc ++ sep ++ y) (a ++ b)
        = a ++ l.foldl (fun acc y => acc ++ sep ++ y) b := by
  induction l with
  | nil => intro a b; rfl
  | cons y ys ih =>
    intro a b
    simp only [List.foldl_cons]
    have h1 : a ++ b ++ sep ++ y = a ++ (b ++ sep ++ y) := by
      rw [String.append_assoc, String.append_assoc, String.append_assoc]
    rw [h1, ih]

theorem strJoin_append (sep : String) (P rest : List String) (hP : P ≠ [])
    (hr : rest ≠ []) :
    strJoin sep (P ++ rest) = strJoin sep P ++ sep ++ strJoin sep rest := by
  match P, rest with
  | [], _ => exact absurd rfl hP
  | _, [] => exact absurd rfl hr
  | x :: xs, r :: rs =>
    rw [List.cons_append, strJoin_cons, List.foldl_append, strJoin_cons, strJoin_cons]
    simp only [List.foldl_cons]
    have : xs.foldl (fun acc y => acc ++ sep ++ y) x ++ sep ++ r
        = (xs.foldl (fun acc y => acc ++ sep ++ y) x ++ sep) ++ r := by
      rw [String.append_assoc]
    rw [this, foldl_join_pre, String.append_assoc]

theorem pyDrop_zero (s : String) : pyDrop s 0 = s := rfl

theorem pyDrop_join (sep : String) (ch : Char) (hs : sep.data = [ch])
    (P rest : List String) (hP : P ≠ []) (hr : rest ≠ []) :
    pyDrop (strJoin sep (P ++ rest)) (pyLen (strJoin sep P) + 1) = strJoin sep rest := by
  rw [strJoin_append sep P rest hP hr]
  unfold pyDrop pyLen
  have hdata : (strJoin sep P ++ sep ++ strJoin sep rest).data
      = ((strJoin sep P).data ++ [ch]) ++ (strJoin sep rest).data := by
    simp [hs, List.append_assoc]
  rw [hdata]
  have hlen : (strJoin sep P).data.length + 1 = ((strJoin sep P).data ++ [ch]).length := by
    simp
  rw [hlen, List.drop_left]

/-- The common-prefix loop only ever keeps a tuple that is the `take` of
every component tuple in the stage. -/
theorem pfxScanAux_take (tuples : List (List String)) (is : List Nat) :
    ∀ cur : List String, (∀ t ∈ tuples, t.take cur.length = cur) →
      ∀ t ∈ tuples, t.take (pfxScanAux tuples cur is).length = pfxScanAux tuples cur is := by
  induction is with
  | nil => intro cur h; simpa [pfxScanAux] using h
  | cons i rest ih =>
    intro cur h
    show ∀ t ∈ tuples,
      t.take (pfxScanAux tuples cur (i :: rest)).length = pfxScanAux tuples cur (i :: rest)
    unfold pfxScanAux
    cases hm : tuples.map (fun tup => tup.take i) with
    | nil =>
      have : tuples = [] := List.map_eq_nil_iff.1 hm
      simp [this]
    | cons p ps =>
      show ∀ t ∈ tuples,
        List.take (if (ps.all fun q => q == p) = true then
            if p.getLastD "" = "" then cur else pfxScanAux tuples p rest
          else cur).length t =
          (if (ps.all fun q => q == p) = true then
            if p.getLastD "" = "" then cur else pfxScanAux tuples p rest
          else cur)
      by_cases hall : ps.all (fun q => q == p) = true
      · rw [if_pos hall]
        by_cases hlast : p.getLastD "" = ""
        · rw [if_pos hlast]; exact h
        · rw [if_neg hlast]
          have htake_i : ∀ t ∈ tuples, t.take i = p := by
            intro t ht
            have : t.take i ∈ p :: ps := hm ▸ List.mem_map_of_mem _ ht
            rcases List.mem_cons.1 this with h1 | h1
            · exact h1
            · have := List.all_eq_true.1 hall _ h1
              simpa using this
          have hple : p.length ≤ i := by
            cases tuples with
            | nil => simp at hm
            | cons t0 ts =>
              have h0 : t0.take i = p := htake_i t0 (by simp)
              calc p.length = (t0.take i).length := by rw [h0]
                _ ≤ i := by simp [List.length_take]
          apply ih p
          intro t ht
          have h1 : t.take i = p := htake_i t ht
          calc t.take p.length = (t.take i).take p.length := by
                rw [List.take_take, Nat.min_eq_left hple]
            _ = p.take p.length := by rw [h1]
            _ = p := List.take_length p
      · rw [if_neg hall]; exact h

theorem commonPfx_take (tuples : List (List String)) :
    ∀ t ∈ tuples, t.take (commonPfx tuples).length = commonPfx tuples := by
  apply pfxScanAux_take
  intro t _
  simp

/-- The key reconstruction fact behind the template compiler: if `P` is a
`take`-style common leading tuple of `comps` and the joined strings differ,
then appending the residual (the Python slice at the code's offset) to `P`
and joining rebuilds the joined `comps` exactly. -/
theorem recon_of_take (sep : String) (ch : Char) (hs : sep.data = [ch])
    (P comps : List String) (htake : comps.take P.length = P)
    (hne : strJoin sep comps ≠ strJoin sep P) :
    strJoin sep (P ++ [pyDrop (strJoin sep comps) (joinOffset sep P)])
      = strJoin sep comps := by
  by_cases hP : P = []
  · subst hP
    have h0 : joinOffset sep [] = 0 := by simp [joinOffset]
    rw [h0, pyDrop_zero]
    rfl
  · have hsplit : P ++ comps.drop P.length = comps := by
      conv_rhs => rw [← List.take_append_drop P.length comps]
      rw [htake]
    have hr : comps.drop P.length ≠ [] := by
      intro h0
      apply hne
      rw [← hsplit, h0, List.append_nil]
    have hsing : ∀ x : String, strJoin sep [x] = x := fun _ => rfl
    rw [joinOffset, if_pos hP, ← hsplit,
        pyDrop_join sep ch hs P (comps.drop P.length) hP hr]
    rw [strJoin_append sep P _ hP (by simp), strJoin_append sep P _ hP hr, hsing]

/-- Invariant of the stage-folding loop: every target of every stage records
the joined name and test components of one of that stage's folded configs. -/
def stageInv (stages : List (String × Stage)) : Prop :=
  ∀ sn st, (sn, st) ∈ stages → ∀ tn tgt, (tn, tgt) ∈ st.targets →
    ∃ c ∈ st.configs,
      tgt.type = strJoin "/" c.test_components ∧ tgt.name = strJoin " " c.name_components

/-- The invariant-preservation core: folding one item into a known base stage
whose targets already satisfy the invariant. -/
theorem foldStage_inv_step (item : TestConfig) (s0 : Stage)
    (hs0 : ∀ tn tgt, (tn, tgt) ∈ s0.targets →
      ∃ c ∈ s0.configs, tgt.type = strJoin "/" c.test_components ∧
        tgt.name = strJoin " " c.name_components)
    (tn : String) (tgt : Target)
    (htgt : (tn, tgt) ∈ setA s0.targets (strJoin " " item.name_components)
      ((lookupA s0.targets (strJoin " " item.name_components)).getD
        ⟨strJoin " " item.name_components, strJoin "/" item.test_components⟩)) :
    ∃ c ∈ s0.configs ++ [item],
      tgt.type = strJoin "/" c.test_components ∧
        tgt.name = strJoin " " c.name_components := by
  rcases mem_setA _ _ _ _ htgt with heq2 | hold2
  · rw [Prod.mk.injEq] at heq2
    obtain ⟨htn, htg⟩ := heq2
    cases hlt : lookupA s0.targets (strJoin " " item.name_components) with
    | none =>
      rw [hlt] at htg
      exact ⟨item, by simp, by rw [htg]; rfl, by rw [htg]; rfl⟩
    | some t0 =>
      rw [hlt] at htg
      simp only [Option.getD_some] at htg
      have hmem0 : (strJoin " " item.name_components, t0) ∈ s0.targets :=
        lookupA_mem _ _ _ hlt
      rcases hs0 _ _ hmem0 with ⟨c, hc, hty, hna⟩
      exact ⟨c, by simp [hc], htg ▸ hty, htg ▸ hna⟩
  · rcases hs0 _ _ hold2 with ⟨c, hc, hty, hna⟩
    exact ⟨c, by simp [hc], hty, hna⟩

theorem foldStage_inv (stages : List (String × Stage)) (item : TestConfig)
    (stages' : List (String × Stage)) (h : foldStage stages item = Except.ok stages')
    (hi : stageInv stages) : stageInv stages' := by
  simp only [foldStage] at h
  split at h
  · exact absurd h (by simp)
  · split at h
    · exact absurd h (by simp)
    · have hst : stages' = _ := (Except.ok.inj h).symm
      subst hst
      intro sn st hmem tn tgt htgt
      rcases mem_setA _ _ _ _ hmem with heq | hold
      swap
      · exact hi sn st hold tn tgt htgt
      rw [Prod.mk.injEq] at heq
      obtain ⟨hsn, hstage⟩ := heq
      rw [hstage] at htgt
      simp only at htgt
      rw [hstage]
      simp only
      cases hl : lookupA stages item.stage_name with
      | none =>
        rw [hl] at htgt
        simp only [Option.getD_none] at htgt ⊢
        exact foldStage_inv_step item ⟨item.stage_name, item.incidental, [], [], []⟩
          (by intro a b hab; simp at hab) tn tgt htgt
      | some s0 =>
        rw [hl] at htgt
        simp only [Option.getD_some] at htgt ⊢
        exact foldStage_inv_step item s0
          (hi item.stage_name s0 (lookupA_mem _ _ _ hl)) tn tgt htgt

theorem foldStages_inv (items : List TestConfig) :
    ∀ (acc res : List (String × Stage)), stageInv acc →
      List.foldlM foldStage acc items = Except.ok res → stageInv res := by
  induction items with
  | nil =>
    intro acc res h hf
    simp only [List.foldlM_nil] at hf
    cases hf
    exact h
  | cons x xs ih =>
    intro acc res h hf
    rw [List.foldlM_cons] at hf
    cases hx : foldStage acc x with
    | error e => rw [hx] at hf; simp [Bind.bind, Except.bind] at hf
    | ok acc' =>
      rw [hx] at hf
      simp only [Bind.bind, Except.bind] at hf
      exact ih acc' res (foldStage_inv acc x acc' hx h) hf

theorem except_bind_ok {ε α β : Type} (a : α) (f : α → Except ε β) :
    (Except.ok (ε := ε) a >>= f) = f a := rfl

theorem except_bind_err {ε α β : Type} (e : ε) (f : α → Except ε β) :
    (Except.error (α := α) e >>= f) = Except.error e := rfl

/-! ### Concrete fixtures (entries the classifier accepts, and their folds) -/

def miB : MatrixItem := ⟨"T=units/3.6", "units/3.6", [], ["units", "3.6"]⟩

def cfgB : TestConfig := ⟨"Units", "Python", "units", none, some "3.6", none, false, none, none⟩

def cfgU27 : TestConfig := ⟨"Units", "Python", "units", none, some "2.7", none, false, none, none⟩

def stages0 : List (String × Stage) :=
  [("Units", ⟨"Units", false, [("Python 3.6", ⟨"Python 3.6", "units/3.6"⟩)], [cfgB], []⟩)]

def stUnits : Stage :=
  ⟨"Units", false,
   [("Python 3.6", ⟨"Python 3.6", "units/3.6"⟩), ("Python 2.7", ⟨"Python 2.7", "units/2.7"⟩)],
   [cfgB, cfgU27], []⟩

def stages1 : List (String × Stage) := [("Units", stUnits)]

def cfgSan : TestConfig := ⟨"Sanity", "Test", "sanity", none, none, none, false, none, none⟩

def cfgSan27 : TestConfig := ⟨"Sanity", "Test", "sanity", none, some "2.7", none, false, none, none⟩

def stSan : Stage :=
  ⟨"Sanity", false,
   [("Test", ⟨"Test", "sanity"⟩), ("Test 2.7", ⟨"Test 2.7", "sanity/2.7"⟩)],
   [cfgSan, cfgSan27], []⟩

def cfgAwsA : TestConfig := ⟨"AWS", "Python", "aws", none, some "2.7", some "10", false, none, none⟩

def cfgAwsB : TestConfig := ⟨"AWS", "Python", "aws", none, some "3.6", some "10", false, none, none⟩

/-- The stage content `generate_stages` emits for the two `aws/*/10` entries. -/
def csAWS : CompiledStage :=
  ⟨"AWS", none, some "Python {0}", some "aws/{0}/1/0", none,
   [⟨none, CleanVal.floatVal "2.7"⟩, ⟨none, CleanVal.floatVal "3.6"⟩]⟩

def miF : MatrixItem := ⟨"T=devel/sanity", "devel/sanity", [], ["devel", "sanity"]⟩

def cfgF : TestConfig := ⟨"Sanity", "Test", "sanity", none, none, none, false, some "devel", none⟩

/-! ### Claim theorems -/

/-- C1: every matrix entry accepted by `classify_matrix_item` reconstructs its
original slash-joined path exactly from the final descriptor, and whenever the
reconstruction differs from the original, classification fails with the
reconstruction-mismatch error. -/
theorem c1_roundtrip : ∀ (mi : MatrixItem) (c : TestConfig),
    (classify_matrix_item mi = Except.ok c → c.test = mi.test) ∧
    (classify_pre mi = Except.ok c → c.test ≠ mi.test →
      classify_matrix_item mi = Except.error (.reconstructionMismatch c.test mi.test)) := by
  intro mi c
  constructor
  · intro h
    unfold classify_matrix_item at h
    cases hp : classify_pre mi with
    | error e => rw [hp] at h; simp at h
    | ok c' =>
      rw [hp] at h
      have h2 : (if mi.test ≠ c'.test then
          Except.error (MigrateError.reconstructionMismatch c'.test mi.test)
        else Except.ok c') = Except.ok c := h
      by_cases ht : mi.test ≠ c'.test
      · rw [if_pos ht] at h2; simp at h2
      · rw [if_neg ht] at h2
        push_neg at ht
        have hcc : c' = c := Except.ok.inj h2
        rw [← hcc, ht]
  · intro hp ht
    unfold classify_matrix_item
    rw [hp]
    show (if mi.test ≠ c.test then
        Except.error (MigrateError.reconstructionMismatch c.test mi.test)
      else Except.ok c) = _
    rw [if_pos (Ne.symm ht)]

/-- C1 witness: `T=units/3.6` is accepted and round-trips. -/
theorem c1_roundtrip_witness :
    classify_matrix_item miB = Except.ok cfgB ∧ cfgB.test = miB.test :=
  ⟨by decide, (c1_roundtrip miB cfgB).1 (by decide)⟩

/-- C2: after a successful fold, with `totalJobs` the sum over stages of
`targetCount * max 1 groupCount`, a strictly smaller total than the number of
classified entries fails fatally, a strictly larger one succeeds with (only)
the warning flag set, and equality succeeds with no warning. -/
theorem c2_job_accounting :
    (∀ (items : List TestConfig) (stages : List (String × Stage)),
      foldStages items = Except.ok stages →
      (converted_jobs stages < items.length →
        generate_stages items =
          Except.error (.matrixCountMismatch items.length (converted_jobs stages))) ∧
      (items.length < converted_jobs stages →
        generate_stages items = Except.ok (true, stages.map (fun e => compileStage e.2))) ∧
      (converted_jobs stages = items.length →
        generate_stages items = Except.ok (false, stages.map (fun e => compileStage e.2)))) ∧
    ∀ s : Stage, s.job_count = s.target_count * max 1 s.groups.length := by
  constructor
  · intro items stages h
    refine ⟨?_, ?_, ?_⟩
    · intro hlt
      unfold generate_stages
      rw [h, except_bind_ok]
      simp only [check_counts]
      rw [if_pos hlt, except_bind_err]
    · intro hgt
      unfold generate_stages
      rw [h, except_bind_ok]
      simp only [check_counts]
      rw [if_neg (Nat.not_lt.2 (Nat.le_of_lt hgt)), except_bind_ok,
          decide_eq_true hgt]
    · intro heq
      unfold generate_stages
      rw [h, except_bind_ok]
      simp only [check_counts]
      rw [if_neg (by omega), except_bind_ok, decide_eq_false (by omega)]
  · intro s
    unfold Stage.job_count Stage.group_count
    cases hg : s.groups.length with
    | zero => simp
    | succ k => simp

/-- C2 witness: one classified entry folds into one stage with one target and
no groups; the totals agree and `generate_stages` succeeds with no warning. -/
theorem c2_job_accounting_witness :
    foldStages [cfgB] = Except.ok stages0 ∧
    converted_jobs stages0 = 1 ∧
    generate_stages [cfgB] = Except.ok (false, stages0.map (fun e => compileStage e.2)) :=
  ⟨by decide, by decide,
   ((c2_job_accounting.1 [cfgB] stages0 (by decide)).2.2 (by decide))⟩

/-- C3 (amended): for every target whose canonical path (resp. display name)
differs from the joined path (resp. name) prefix — equivalently, whose
component tuple strictly extends the prefix — joining the prefix with the
target's residual reproduces the canonical path (resp. display name) exactly.
(When the target's string equals the joined prefix the residual is empty and
the reconstruction gains a trailing separator; see the counterexample.) -/
theorem c3_amended :
    ∀ (items : List TestConfig) (stages : List (String × Stage)),
      foldStages items = Except.ok stages →
      ∀ sn st, (sn, st) ∈ stages → ∀ tn tgt, (tn, tgt) ∈ st.targets →
        (tgt.type ≠ strJoin "/" (commonPfx (st.configs.map TestConfig.test_components)) →
          strJoin "/" (commonPfx (st.configs.map TestConfig.test_components) ++
              [pyDrop tgt.type
                (joinOffset "/" (commonPfx (st.configs.map TestConfig.test_components)))])
            = tgt.type) ∧
        (tgt.name ≠ strJoin " " (commonPfx (st.configs.map TestConfig.name_components)) →
          strJoin " " (commonPfx (st.configs.map TestConfig.name_components) ++
              [pyDrop tgt.name
                (joinOffset " " (commonPfx (st.configs.map TestConfig.name_components)))])
            = tgt.name) := by
  intro items stages hf sn st hst tn tgt htgt
  have hinv := foldStages_inv items [] stages (by intro a b hab; simp at hab) hf
  rcases hinv sn st hst tn tgt htgt with ⟨c, hc, hty, hna⟩
  constructor
  · intro hne
    have hmem : c.test_components ∈ st.configs.map TestConfig.test_components :=
      List.mem_map_of_mem _ hc
    have htake := commonPfx_take _ _ hmem
    rw [hty] at hne ⊢
    exact recon_of_take "/" '/' rfl _ _ htake hne
  · intro hne
    have hmem : c.name_components ∈ st.configs.map TestConfig.name_components :=
      List.mem_map_of_mem _ hc
    have htake := commonPfx_take _ _ hmem
    rw [hna] at hne ⊢
    exact recon_of_take " " ' ' rfl _ _ htake hne

/-- C3 witness: two `units` entries share the prefix `units`; the target
`Python 3.6` (path `units/3.6`, residual `3.6`) reconstructs exactly, on both
the path and the name side. -/
theorem c3_amended_witness :
    foldStages [cfgB, cfgU27] = Except.ok stages1 ∧
    strJoin "/" (commonPfx (stUnits.configs.map TestConfig.test_components) ++
        [pyDrop "units/3.6"
          (joinOffset "/" (commonPfx (stUnits.configs.map TestConfig.test_components)))])
      = "units/3.6" ∧
    strJoin " " (commonPfx (stUnits.configs.map TestConfig.name_components) ++
        [pyDrop "Python 3.6"
          (joinOffset " " (commonPfx (stUnits.configs.map TestConfig.name_components)))])
      = "Python 3.6" := by
  have hmain := c3_amended [cfgB, cfgU27] stages1 (by decide)
    "Units" stUnits (by decide)
    "Python 3.6" ⟨"Python 3.6", "units/3.6"⟩ (by decide)
  exact ⟨by decide, hmain.1 (by decide), hmain.2 (by decide)⟩

/-- C3 counterexample: folding the classifier outputs for `T=sanity` and
`T=sanity/2.7` yields the stage `Sanity` with path prefix `sanity`; the
target `Test` has canonical path `sanity`, its residual is empty, and the
reconstruction yields `sanity/` — not the canonical path. -/
theorem c3_counterexample :
    classify_matrix_item ⟨"T=sanity", "sanity", [], ["sanity"]⟩ = Except.ok cfgSan ∧
    classify_matrix_item ⟨"T=sanity/2.7", "sanity/2.7", [], ["sanity", "2.7"]⟩ =
      Except.ok cfgSan27 ∧
    foldStages [cfgSan, cfgSan27] = Except.ok [("Sanity", stSan)] ∧
    ("Test", (⟨"Test", "sanity"⟩ : Target)) ∈ stSan.targets ∧
    commonPfx (stSan.configs.map TestConfig.test_components) = ["sanity"] ∧
    pyDrop "sanity" (joinOffset "/" ["sanity"]) = "" ∧
    strJoin "/" (["sanity"] ++ [pyDrop "sanity" (joinOffset "/" ["sanity"])]) = "sanity/" ∧
    ("sanity/" : String) ≠ "sanity" ∧
    strJoin " " (["Test"] ++ [pyDrop "Test" (joinOffset " " ["Test"])]) = "Test " ∧
    ("Test " : String) ≠ "Test" := by
  refine ⟨by decide, by decide, by decide, by decide, by decide,
    by decide, by decide, by decide, by decide, by decide⟩

/-- C4 (code bug): for a stage whose single distinct group is the multi-digit
string `10`, the source's `tuple(list(stage.groups)[0], )` iterates the
characters of the group, so the emitted path-format is `aws/{0}/1/0` rather
than the single-segment `aws/{0}/10` the spec describes.  The last conjunct
shows the multi-group branch (lexically sorted as strings, then coerced). -/
theorem c4_group_suffix_bug :
    classify_matrix_item ⟨"T=aws/2.7/10", "aws/2.7/10", [], ["aws", "2.7", "10"]⟩ =
      Except.ok cfgAwsA ∧
    classify_matrix_item ⟨"T=aws/3.6/10", "aws/3.6/10", [], ["aws", "3.6", "10"]⟩ =
      Except.ok cfgAwsB ∧
    generate_stages [cfgAwsA, cfgAwsB] = Except.ok (false, [csAWS]) ∧
    csAWS.testFormat = some "aws/{0}/1/0" ∧
    ("aws/{0}/1/0" : String) ≠ "aws/{0}/10" ∧
    clean_values ["9", "10"] = [CleanVal.intVal 10, CleanVal.intVal 9] := by
  refine ⟨by decide, by decide, by decide, by decide, by decide, by decide⟩

/-- C5 counterexample: duplicate keys do not make the decoder fail (the later
value silently wins), and a token with a second `=` is rejected instead of
mapping the key to the remainder `a=b`. -/
theorem c5_counterexample :
    parse_matrix_item "T=x A=1 A=2" =
      Except.ok ⟨"T=x A=1 A=2", "x", [("A", "2")], ["x"]⟩ ∧
    parse_matrix_item "T=x K=a=b" = Except.error (.malformedEntry "K=a=b") := by
  exact ⟨by decide, by decide⟩

theorem find?_map_update (k v : String) :
    ∀ m : List (String × String), m.any (fun e => e.1 == k) = true →
      (m.map (fun e => if (e.1 == (k, v).1) = true then (k, v) else e)).find?
          (fun e => e.1 == k) = some (k, v) := by
  intro m
  induction m with
  | nil => intro hany; simp at hany
  | cons e es ih =>
    intro hany
    by_cases hek : (e.1 == k) = true
    · rw [List.map_cons, if_pos hek, List.find?_cons_of_pos]
      simp
    · rw [List.map_cons, if_neg hek, List.find?_cons_of_neg _ (by simpa using hek)]
      apply ih
      rw [List.any_cons] at hany
      simpa [hek] using hany

/-- C5 (amended): the decoder splits each raw entry on spaces and each token
on every `=`; a token that does not split into exactly a key and one value is
a malformed-input failure, and a duplicate key is not an error — the mapping
keeps the last occurrence's value. -/
theorem c5_amended :
    (∀ tok : String, (splitChar tok '=').length ≠ 2 →
      splitKvp tok = Except.error (.malformedEntry tok)) ∧
    (∀ (m : List (String × String)) (k v : String),
      (insertKvp m (k, v)).find? (fun e => e.1 == k) = some (k, v)) := by
  constructor
  · intro tok hlen
    unfold splitKvp
    cases hs : splitChar tok '=' with
    | nil => rfl
    | cons a l =>
      cases l with
      | nil => rfl
      | cons b l2 =>
        cases l2 with
        | nil => exact absurd (by rw [hs]; rfl) hlen
        | cons cc l3 => rfl
  · intro m k v
    unfold insertKvp
    by_cases hany : m.any (fun e => e.1 == k) = true
    · rw [if_pos hany]
      exact find?_map_update k v m hany
    · rw [if_neg hany]
      have hn : m.find? (fun e => e.1 == k) = none := by
        rw [List.find?_eq_none]
        intro x hx hxk
        exact hany (List.any_eq_true.2 ⟨x, hx, hxk⟩)
      rw [List.find?_append, hn]
      simp

/-- C5 amended witness: `A=1=2` splits into three fields and is rejected, and
inserting a duplicate key `A` makes the lookup return the new value. -/
theorem c5_amended_witness :
    (splitChar "A=1=2" '=').length ≠ 2 ∧
    splitKvp "A=1=2" = Except.error (.malformedEntry "A=1=2") ∧
    (insertKvp [("A", "1")] ("A", "2")).find? (fun e => e.1 == "A") = some ("A", "2") :=
  ⟨by decide, c5_amended.1 "A=1=2" (by decide), c5_amended.2 [("A", "1")] "A" "2"⟩

/-- C10: entries whose path is only a recognized branch token, only the
incidental marker `i`, or a branch token followed only by `i`, drive the
classifier into reading the head of an empty segment list: an index error,
not one of the named classification failures.  (The decoder produces exactly
these items from the raw entries.) -/
theorem c10_index_error_reachable :
    parse_matrix_item "T=devel" = Except.ok ⟨"T=devel", "devel", [], ["devel"]⟩ ∧
    classify_matrix_item ⟨"T=devel", "devel", [], ["devel"]⟩ =
      Except.error MigrateError.indexError ∧
    parse_matrix_item "T=i" = Except.ok ⟨"T=i", "i", [], ["i"]⟩ ∧
    classify_matrix_item ⟨"T=i", "i", [], ["i"]⟩ = Except.error MigrateError.indexError ∧
    parse_matrix_item "T=devel/i" = Except.ok ⟨"T=devel/i", "devel/i", [], ["devel", "i"]⟩ ∧
    classify_matrix_item ⟨"T=devel/i", "devel/i", [], ["devel", "i"]⟩ =
      Except.error MigrateError.indexError := by
  refine ⟨by decide, by decide, by decide, by decide, by decide, by decide⟩

/-- C6: arity-dependent decode.  With one remaining segment, job label
`Python` decides version-vs-group by the presence of a `.`, while any other
job label always takes the segment as the version; two segments are
`(version, group)`, three are `(platform, version, group)`, and more than
three is a fatal failure. -/
theorem c6_arity_decode : ∀ (tt sl jl : String), test_types tt = some (sl, jl) →
    tt ≠ "linux" → ∀ (inc : Bool) (bp : Option String) (bk : Option (String × String)),
    (∀ x : String, get_test_config tt [x] inc bp bk =
      Except.ok ⟨sl, jl, tt, none,
        (if jl = "Python" then (if x.data.contains '.' then some x else none) else some x),
        (if jl = "Python" then (if x.data.contains '.' then none else some x) else none),
        inc, bp, bk⟩) ∧
    (∀ v g : String, get_test_config tt [v, g] inc bp bk =
      Except.ok ⟨sl, jl, tt, none, some v, some g, inc, bp, bk⟩) ∧
    (∀ p v g : String, get_test_config tt [p, v, g] inc bp bk =
      Except.ok ⟨sl, jl, tt, some p, some v, some g, inc, bp, bk⟩) ∧
    (∀ (a b c2 d : String) (r : List String),
      get_test_config tt (a :: b :: c2 :: d :: r) inc bp bk =
        Except.error (.unhandledArity tt (a :: b :: c2 :: d :: r))) := by
  intro tt sl jl h hl inc bp bk
  refine ⟨?_, ?_, ?_, ?_⟩
  · intro x
    unfold get_test_config arity_decode
    rw [h]
    by_cases hj : jl = "Python"
    · by_cases hc : '.' ∈ x.data
      · simp [hj, hc, hl]
      · simp [hj, hc, hl]
    · simp [hj, hl]
  · intro v g
    unfold get_test_config arity_decode
    rw [h]
    simp [hl]
  · intro p v g
    unfold get_test_config arity_decode
    rw [h]
    simp [hl]
  · intro a b c2 d r
    unfold get_test_config arity_decode
    rw [h]

/-- C6 witness: `units` (job label `Python`) takes `3.6` as a version (it
contains a dot) and `1` as a group; `sanity` (job label `Test`) takes `1` as
a version; four segments fail. -/
theorem c6_arity_decode_witness :
    test_types "units" = some ("Units", "Python") ∧
    get_test_config "units" ["3.6"] false none none =
      Except.ok ⟨"Units", "Python", "units", none, some "3.6", none, false, none, none⟩ ∧
    get_test_config "units" ["1"] false none none =
      Except.ok ⟨"Units", "Python", "units", none, none, some "1", false, none, none⟩ ∧
    get_test_config "sanity" ["1"] false none none =
      Except.ok ⟨"Sanity", "Test", "sanity", none, some "1", none, false, none, none⟩ ∧
    get_test_config "units" ["a", "b", "c", "d"] false none none =
      Except.error (.unhandledArity "units" ["a", "b", "c", "d"]) := by
  have h1 := (c6_arity_decode "units" "Units" "Python" (by decide) (by decide)
    false none none).1 "3.6"
  have h2 := (c6_arity_decode "units" "Units" "Python" (by decide) (by decide)
    false none none).1 "1"
  have h3 := (c6_arity_decode "sanity" "Sanity" "Test" (by decide) (by decide)
    false none none).1 "1"
  have h4 := (c6_arity_decode "units" "Units" "Python" (by decide) (by decide)
    false none none).2.2.2 "a" "b" "c" "d" []
  exact ⟨by decide, h1.trans (by decide), h2.trans (by decide), h3.trans (by decide), h4⟩

/-- C8: the display target name starts from the job label, gets the stage
label prepended exactly when the test is incidental and its stage label is
not split-incidental, and gets the version appended when it is set (to a
non-empty value) — except the `linux`/`openSUSE`/`15` carve-out, which
appends the literal `15 py3` instead. -/
theorem c8_name_components : ∀ c : TestConfig, c.name_components = specNameComponents c := by
  intro c
  simp only [TestConfig.name_components, specNameComponents]
  have hbase : (if (c.incidental && !split_incidental.contains c.stage_label) = true then
      c.stage_label :: [c.job_label] else [c.job_label]) =
      (if c.incidental = true ∧ ¬ split_incidental.contains c.stage_label = true then
      [c.stage_label, c.job_label] else [c.job_label]) := by
    by_cases h1 : c.incidental = true <;>
      by_cases h2 : split_incidental.contains c.stage_label = true <;>
      simp [h1, h2]
  cases hv : c.version with
  | none => exact hbase
  | some v =>
    by_cases hv0 : v = ""
    · subst hv0
      exact hbase
    · by_cases hcarve : c.type = "linux" ∧ c.job_label = "openSUSE" ∧ v = "15"
      · simp only [if_neg hv0, if_pos hcarve, hbase]
      · simp only [if_neg hv0, if_neg hcarve, hbase]

/-! ### Inversion of the classifier, for the stage-name claims -/

theorem test_types_stage_mem (t sl jl : String) (h : test_types t = some (sl, jl)) :
    sl ∈ stageLabels := by
  have hm := lookupA_mem _ _ _ h
  have hall : ∀ x ∈ test_types_list, x.2.1 ∈ stageLabels := by decide
  exact hall _ hm

theorem gtc_fields (tt : String) (parts : List String) (inc : Bool) (bp : Option String)
    (bk : Option (String × String)) (c : TestConfig)
    (h : get_test_config tt parts inc bp bk = Except.ok c) :
    c.branch_pfx = bp ∧ c.branch_kvp = bk ∧ c.incidental = inc ∧
      c.stage_label ∈ stageLabels := by
  unfold get_test_config at h
  split at h
  · simp at h
  next sl jl heq =>
    split at h
    · simp at h
    next p v g ha =>
      split at h
      · split at h
        · simp at h
        · split at h
          · simp at h
          next dj dv hd =>
            cases Except.ok.inj h
            exact ⟨rfl, rfl, rfl, test_types_stage_mem _ _ _ heq⟩
      · cases Except.ok.inj h
        exact ⟨rfl, rfl, rfl, test_types_stage_mem _ _ _ heq⟩

theorem classify_tail_fields (bp : Option String) (bk : Option (String × String))
    (parts : List String) (values : List (String × String)) (c : TestConfig)
    (h : classify_tail bp bk parts values = Except.ok c) :
    c.branch_pfx = bp ∧ c.branch_kvp = bk ∧ c.stage_label ∈ stageLabels := by
  unfold classify_tail at h
  split at h
  · simp at h
  · split at h
    · simp at h
    · split at h
      · split at h
        · simp at h
        · obtain ⟨h1, h2, _, h4⟩ := gtc_fields _ _ _ _ _ _ h
          exact ⟨h1, h2, h4⟩
      · obtain ⟨h1, h2, _, h4⟩ := gtc_fields _ _ _ _ _ _ h
        exact ⟨h1, h2, h4⟩

theorem classify_pre_fields (mi : MatrixItem) (c : TestConfig)
    (h : classify_pre mi = Except.ok c) :
    (c.branch_pfx = none ∨ ∃ b, c.branch_pfx = some b ∧ b ∈ ansible_branches) ∧
    (c.branch_kvp = none ∨ ∃ kv, c.branch_kvp = some kv ∧ kv.2 ∈ ansible_branches) ∧
    c.stage_label ∈ stageLabels := by
  unfold classify_pre at h
  split at h
  · simp at h
  next p0 rest hp =>
    split at h
    next hcont =>
      obtain ⟨h1, h2, h3⟩ := classify_tail_fields _ _ _ _ _ h
      refine ⟨Or.inr ⟨p0, h1, ?_⟩, Or.inl h2, h3⟩
      simpa using hcont
    next hcont =>
      split at h
      next kv hfind =>
        obtain ⟨h1, h2, h3⟩ := classify_tail_fields _ _ _ _ _ h
        refine ⟨Or.inl h1, Or.inr ⟨kv, h2, ?_⟩, h3⟩
        have := List.find?_some hfind
        simpa using this
      next hfind =>
        obtain ⟨h1, h2, h3⟩ := classify_tail_fields _ _ _ _ _ h
        exact ⟨Or.inl h1, Or.inl h2, h3⟩

theorem classify_fields (mi : MatrixItem) (c : TestConfig)
    (h : classify_matrix_item mi = Except.ok c) :
    (c.branch_pfx = none ∨ ∃ b, c.branch_pfx = some b ∧ b ∈ ansible_branches) ∧
    (c.branch_kvp = none ∨ ∃ kv, c.branch_kvp = some kv ∧ kv.2 ∈ ansible_branches) ∧
    c.stage_label ∈ stageLabels := by
  unfold classify_matrix_item at h
  cases hp : classify_pre mi with
  | error e => rw [hp] at h; simp at h
  | ok c' =>
    rw [hp] at h
    have h2 : (if mi.test ≠ c'.test then
        Except.error (MigrateError.reconstructionMismatch c'.test mi.test)
      else Except.ok c') = Except.ok c := h
    by_cases ht : mi.test ≠ c'.test
    · rw [if_pos ht] at h2; simp at h2
    · rw [if_neg ht] at h2
      have hcc : c' = c := Except.ok.inj h2
      exact classify_pre_fields mi c (hcc ▸ hp)

theorem branch_facts : ∀ x ∈ ansible_branches,
    optTruthy (some x) = true ∧ ¬ x = "" ∧
    pyReplace x "stable-" "" = stripStable x ∧ ¬ stripStable x = "" ∧
    some (pyReplace x "stable-" "") ∈ branchOpts := by decide

theorem branch_name_resolved (c : TestConfig)
    (h1 : c.branch_pfx = none ∨ ∃ b, c.branch_pfx = some b ∧ b ∈ ansible_branches)
    (h2 : c.branch_kvp = none ∨ ∃ kv, c.branch_kvp = some kv ∧ kv.2 ∈ ansible_branches) :
    c.branch_name = specResolvedBranch c ∧
    (∀ b, specResolvedBranch c = some b → ¬ b = "") ∧
    c.branch_name ∈ branchOpts := by
  unfold TestConfig.branch_name specResolvedBranch
  rcases h1 with hb | ⟨b, hb, hbm⟩
  · rw [hb]
    have hf : optTruthy (none : Option String) = false := rfl
    rw [hf]
    simp only [Bool.false_eq_true, if_false]
    rcases h2 with hk | ⟨kv, hk, hkm⟩
    · rw [hk]
      exact ⟨rfl, by intro b hb2; simp at hb2, by decide⟩
    · rw [hk]
      obtain ⟨_, hne, hrep, hsne, hin⟩ := branch_facts _ hkm
      refine ⟨?_, ?_, ?_⟩
      · simp [hne, hrep]
      · intro b hb2
        have hb3 : b = stripStable kv.2 := by simpa using hb2.symm
        rw [hb3]; exact hsne
      · simpa [hne] using hin
  · rw [hb]
    obtain ⟨htr, hne, hrep, hsne, hin⟩ := branch_facts _ hbm
    rw [htr]
    simp only [if_true]
    refine ⟨?_, ?_, ?_⟩
    · simp [hne, hrep]
    · intro b2 hb2
      have hb3 : b2 = stripStable b := by simpa using hb2.symm
      rw [hb3]; exact hsne
    · simpa [hne] using hin

/-- C7: for every classified test, the display stage name is the stage label,
with the resolved branch (from the branch prefix or the branch key/value
pair, `stable-` stripped) appended after a space when present, then the
incidental prefixing (`Incidental `) for split-incidental stage labels or
wholesale replacement by `Incidental` otherwise. -/
theorem c7_stage_name : ∀ (mi : MatrixItem) (c : TestConfig),
    classify_matrix_item mi = Except.ok c → c.stage_name = specStageName c := by
  intro mi c h
  obtain ⟨hb, hk, _⟩ := classify_fields mi c h
  obtain ⟨hbr, hnb, _⟩ := branch_name_resolved c hb hk
  simp only [TestConfig.stage_name, stageNameCore, specStageName]
  rw [hbr]
  cases hsr : specResolvedBranch c with
  | none => rfl
  | some b =>
    have hbne := hnb b hsr
    simp [hbne]

/-- C7 witness: `T=devel/sanity` classifies with branch prefix `devel` and
displays the stage `Sanity devel` (scenario F), matching the spec formula. -/
theorem c7_stage_name_witness :
    classify_matrix_item miF = Except.ok cfgF ∧
    cfgF.stage_name = "Sanity devel" ∧
    cfgF.stage_name = specStageName cfgF :=
  ⟨by decide, by decide, c7_stage_name miF cfgF (by decide)⟩

theorem stageNameCore_take2 : ∀ sl ∈ stageLabels, ∀ bn ∈ branchOpts,
    (stageNameCore sl bn true).data.take 2 = ['I', 'n'] ∧
    (stageNameCore sl bn false).data.take 2 ≠ ['I', 'n'] := by decide

/-- C9: the aggregator's stage-incidental-conflict branch is unreachable for
classifier outputs — two classified tests with the same display stage name
always carry the same incidental flag, because incidental stage names start
with `Incidental` and no non-incidental stage name does. -/
theorem c9_incidental_from_stage_name :
    ∀ (mi1 mi2 : MatrixItem) (c1 c2 : TestConfig),
      classify_matrix_item mi1 = Except.ok c1 →
      classify_matrix_item mi2 = Except.ok c2 →
      c1.stage_name = c2.stage_name → c1.incidental = c2.incidental := by
  intro mi1 mi2 c1 c2 h1 h2 hs
  obtain ⟨hb1, hk1, hs1⟩ := classify_fields mi1 c1 h1
  obtain ⟨hb2, hk2, hs2⟩ := classify_fields mi2 c2 h2
  obtain ⟨_, _, hm1⟩ := branch_name_resolved c1 hb1 hk1
  obtain ⟨_, _, hm2⟩ := branch_name_resolved c2 hb2 hk2
  have ht1 := stageNameCore_take2 _ hs1 _ hm1
  have ht2 := stageNameCore_take2 _ hs2 _ hm2
  cases hi1 : c1.incidental <;> cases hi2 : c2.incidental
  · rfl
  · exfalso
    apply ht1.2
    have e1 : c1.stage_name = stageNameCore c1.stage_label c1.branch_name false := by
      rw [← hi1]; rfl
    have e2 : c2.stage_name = stageNameCore c2.stage_label c2.branch_name true := by
      rw [← hi2]; rfl
    rw [← e1, hs, e2]
    exact ht2.1
  · exfalso
    apply ht2.2
    have e1 : c1.stage_name = stageNameCore c1.stage_label c1.branch_name true := by
      rw [← hi1]; rfl
    have e2 : c2.stage_name = stageNameCore c2.stage_label c2.branch_name false := by
      rw [← hi2]; rfl
    rw [← e2, ← hs, e1]
    exact ht1.1
  · rfl

def miU27 : MatrixItem := ⟨"T=units/2.7", "units/2.7", [], ["units", "2.7"]⟩

/-- C9 witness: two distinct classified entries that land in the stage
`Units` agree on the incidental flag. -/
theorem c9_incidental_witness :
    classify_matrix_item miB = Except.ok cfgB ∧
    classify_matrix_item miU27 = Except.ok cfgU27 ∧
    cfgB.stage_name = cfgU27.stage_name ∧
    cfgB.incidental = cfgU27.incidental :=
  ⟨by decide, by decide, by decide,
   c9_incidental_from_stage_name miB miU27 cfgB cfgU27 (by decide) (by decide) (by decide)⟩

end Migrate
